import Mathlib

/-!
# Verification of the obsidian-mia-companion-v2 resilient API client core

This development gives a shallow embedding, in Lean, of the client-core logic of
the repository (request deduplication, TTL caching, rate limiting, retry with
exponential backoff, write batching, token authentication) and proves or refutes
the specification claims about it.

Conventions of the embedding:
* Times are natural numbers of milliseconds (`Date.now()` values).
* JavaScript `Map`s are association lists keyed by strings; `Map.get` is a
  first-match lookup, `Map.set` replaces the entry for the key, `Map.delete`
  removes it.
* A JS promise chain is modelled by explicit state passing: the synchronous
  prefix of an `async` function (everything before its first `await`) is one
  atomic step on the service state, which matches the single-threaded
  cooperative event-loop semantics of the source.
* Fallible computations return `Except`.
-/

namespace MiaClient

/-- Character-list version of `startsWith`. -/
def listBeginsWith : List Char → List Char → Bool
  | _, [] => true
  | [], _ :: _ => false
  | c :: cs, p :: ps => c = p && listBeginsWith cs ps

/-- Character-list substring test: some suffix of `s` begins with `pat`. -/
def listHasSub : List Char → List Char → Bool
  | [], pat => pat.isEmpty
  | c :: cs, pat => listBeginsWith (c :: cs) pat || listHasSub cs pat

/-- Model of JavaScript `String.prototype.includes`: `s` contains `pat` as a
contiguous substring. -/
def strIncludes (s pat : String) : Bool := listHasSub s.data pat.data

/-- The `code` field of a JS error object: a numeric HTTP status, a string
errno such as `ECONNRESET`, or absent (`undefined`). -/
inductive JsCode where
  | num (n : Int)
  | str (s : String)
  | undef
deriving DecidableEq

/-- A JS error value as consumed by the retry classifiers: a `code` field and
an optional `message` field. -/
structure ApiError where
  code : JsCode := .undef
  message : Option String := none
deriving DecidableEq

/-- JS comparison `lo <= error.code && error.code < hi`: false whenever the
code is a string or `undefined` (NaN comparisons are false in JS). -/
def codeInRange (c : JsCode) (lo hi : Int) : Bool :=
  match c with
  | .num n => decide (lo ≤ n) && decide (n < hi)
  | _ => false

namespace OptimizedGoogleCalendar

/-- Embeds `isRetryableError` of `src/api/OptimizedGoogleCalendar.ts`
(lines 292-301): 429, [500,600), `ECONNRESET`/`ETIMEDOUT`, or a message
containing `quota`. The `Option` argument models the initial
`if (!error) return false` truthiness guard. -/
def isRetryableError : Option ApiError → Bool
  | none => false
  | some e =>
    if e.code = JsCode.num 429 then true
    else if codeInRange e.code 500 600 then true
    else if e.code = JsCode.str "ECONNRESET" || e.code = JsCode.str "ETIMEDOUT" then true
    else if (match e.message with | some m => strIncludes m "quota" | none => false) then true
    else false

end OptimizedGoogleCalendar

namespace GoogleCalendar

/-- Embeds `isRetryableError` of `src/api/google-calendar.ts` (lines 193-211);
identical to the optimized version except that `ECONNREFUSED` is also a
retryable network error code. -/
def isRetryableError : Option ApiError → Bool
  | none => false
  | some e =>
    if e.code = JsCode.num 429 then true
    else if codeInRange e.code 500 600 then true
    else if e.code = JsCode.str "ECONNRESET" || e.code = JsCode.str "ETIMEDOUT"
            || e.code = JsCode.str "ECONNREFUSED" then true
    else if (match e.message with | some m => strIncludes m "quota" | none => false) then true
    else false

end GoogleCalendar

namespace GoogleTasksClient

/-- Embeds the retry condition of `GoogleTasksClient.request`
(`src/unnamed/part_000`, lines 352-364): a caught request error is retried
iff `error.status === 429 || (error.status >= 500 && error.status < 600)`.
The Tasks request errors carry the HTTP status in a `status` field. -/
def requestRetryCondition (status : JsCode) : Bool :=
  status = JsCode.num 429 || codeInRange status 500 600

end GoogleTasksClient

/-- Shared skeleton of `withRetry` (`OptimizedGoogleCalendar.ts` lines 266-290
and `google-calendar.ts` lines 216-241, which have the same observable
behavior). `outcomes i` is the result of the i-th attempt of `fn`;
`remaining` is `maxRetries - retryCount`, so `remaining = 0` is the code's
`retryCount >= maxRetries` / `attempt === maxRetries` exhaustion test. The
second component collects the backoff delays `baseDelay * 2 ^ attempt`
awaited between attempts, in order. -/
def withRetryGo (retryable : ApiError → Bool) (outcomes : Nat → Except ApiError α)
    (baseDelay : Nat) : Nat → Nat → Except ApiError α × List Nat
  | retryCount, remaining =>
    match outcomes retryCount with
    | .ok a => (.ok a, [])
    | .error e =>
      match remaining with
      | 0 => (.error e, [])
      | r + 1 =>
        if retryable e then
          let rest := withRetryGo retryable outcomes baseDelay (retryCount + 1) r
          (rest.1, baseDelay * 2 ^ retryCount :: rest.2)
        else (.error e, [])

namespace OptimizedGoogleCalendar

/-- `withRetry` of `OptimizedGoogleCalendar.ts`: starts at `retryCount = 0`
with `maxRetries` retries left, classifying errors with this service's
`isRetryableError`. Returns the final result and the list of backoff delays. -/
def withRetry (outcomes : Nat → Except ApiError α) (maxRetries baseDelay : Nat) :
    Except ApiError α × List Nat :=
  withRetryGo (fun e => isRetryableError (some e)) outcomes baseDelay 0 maxRetries

end OptimizedGoogleCalendar

namespace GoogleCalendar

/-- `withRetry` of `google-calendar.ts`, using that module's classifier. -/
def withRetry (outcomes : Nat → Except ApiError α) (maxRetries baseDelay : Nat) :
    Except ApiError α × List Nat :=
  withRetryGo (fun e => isRetryableError (some e)) outcomes baseDelay 0 maxRetries

end GoogleCalendar

/-- Attempt instants implied by a list of inter-attempt delays: the first
attempt happens at t = 0 and each delay separates consecutive attempts. -/
def attemptTimes (delays : List Nat) : List Nat :=
  List.scanl (· + ·) 0 delays

namespace OptimizedGoogleCalendar

/-- `CacheEntry<T>` of `OptimizedGoogleCalendar.ts`: the cached value and its
absolute expiry instant. `expires = none` models the JS value `Infinity`
(produced by `setCached` with `ttl = Infinity`), for which every comparison
`expires < now` is false. -/
structure CacheEntry (α : Type) where
  data : α
  expires : Option Nat
deriving DecidableEq

/-- The `cache` map of the service: a string-keyed JS `Map`. -/
abbrev Cache (α : Type) := List (String × CacheEntry α)

/-- `Map.get`: first entry with the given key. -/
def cacheFind (c : Cache α) (k : String) : Option (CacheEntry α) :=
  (c.find? (fun p => p.1 = k)).map (·.2)

/-- `Map.delete`: remove the entry with the given key. -/
def cacheDelete (c : Cache α) (k : String) : Cache α :=
  c.filter (fun p => !(p.1 = k))

/-- `Map.set`: replace the entry for the key. -/
def cacheSet (c : Cache α) (k : String) (e : CacheEntry α) : Cache α :=
  cacheDelete c k ++ [(k, e)]

/-- The JS comparison `entry.expires < now`, with `Infinity < now` false. -/
def entryStale (e : CacheEntry α) (now : Nat) : Bool :=
  match e.expires with
  | some t => t < now
  | none => false

/-- Embeds `getCached` (lines 141-151): a missing entry gives `null`; an entry
with `entry.expires < Date.now()` is deleted and gives `null`; otherwise the
cached data is returned. The second component is the cache after the lazy
eviction. -/
def getCached (c : Cache α) (k : String) (now : Nat) : Option α × Cache α :=
  match cacheFind c k with
  | none => (none, c)
  | some entry =>
    if entryStale entry now then (none, cacheDelete c k)
    else (some entry.data, c)

/-- Embeds `cleanExpiredCache` (lines 166-173): delete every entry with
`entry.expires < now`. -/
def cleanExpiredCache (c : Cache α) (now : Nat) : Cache α :=
  c.filter (fun p => !(entryStale p.2 now))

/-- Embeds `setCached` (lines 153-164): store the value with
`expires = Date.now() + ttl` (`ttl = none` models `Infinity`), then run the
expired-entry sweep when the cache holds more than 100 entries. -/
def setCached (c : Cache α) (k : String) (v : α) (ttl : Option Nat) (now : Nat) : Cache α :=
  let c2 := cacheSet c k ⟨v, ttl.map (now + ·)⟩
  if 100 < c2.length then cleanExpiredCache c2 now else c2

/-- `REQUEST_DEDUP_WINDOW` (line 60). -/
def REQUEST_DEDUP_WINDOW : Nat := 100

/-- The `pendingRequests` map: key to the `timestamp` at which the pending
producer was started (the promise identity is the timestamp's slot). -/
abbrev PendingMap := List (String × Nat)

/-- `pendingRequests.get`. -/
def pendingFind (p : PendingMap) (k : String) : Option Nat :=
  (p.find? (fun q => q.1 = k)).map (·.2)

/-- `pendingRequests.set`. -/
def pendingSet (p : PendingMap) (k : String) (ts : Nat) : PendingMap :=
  p.filter (fun q => !(q.1 = k)) ++ [(k, ts)]

/-- `pendingRequests.delete`. -/
def pendingDelete (p : PendingMap) (k : String) : PendingMap :=
  p.filter (fun q => !(q.1 = k))

/-- The deduplication-relevant state of the service: the response cache and
the in-flight request map. -/
structure DedupState (α : Type) where
  cache : Cache α
  pending : PendingMap
deriving DecidableEq

/-- What a call to `dedupedRequest` does: serve from cache, join an in-flight
promise started at `startedAt`, or invoke the producer (`requestFn`) anew. -/
inductive DedupOutcome (α : Type) where
  | cachedHit (v : α)
  | joined (startedAt : Nat)
  | started
deriving DecidableEq

/-- True iff the call invoked the producer. -/
def DedupOutcome.isStarted : DedupOutcome α → Bool
  | .started => true
  | _ => false

/-- Embeds the synchronous prefix of `dedupedRequest` (lines 191-224), one
atomic step of the event loop at instant `now`:
1. check the cache (`getCached`, with its lazy eviction);
2. on a miss, if a pending entry exists and `Date.now() - pending.timestamp <
   REQUEST_DEDUP_WINDOW`, return the pending promise;
3. otherwise invoke `requestFn()` and record the new pending entry with
   timestamp `now` (overwriting any stale pending entry).
Settlement of the produced promise is a separate step (`dedupeSettleSuccess`
and `dedupeSettleFailure` below). -/
def dedupedRequest (s : DedupState α) (k : String) (now : Nat) :
    DedupOutcome α × DedupState α :=
  let hit := getCached s.cache k now
  match hit.1 with
  | some v => (.cachedHit v, { s with cache := hit.2 })
  | none =>
    match pendingFind s.pending k with
    | some ts =>
      if now - ts < REQUEST_DEDUP_WINDOW then (.joined ts, { s with cache := hit.2 })
      else (.started, { cache := hit.2, pending := pendingSet s.pending k now })
    | none => (.started, { cache := hit.2, pending := pendingSet s.pending k now })

/-- Settlement of a successful producer (the `.then` handler, lines 209-212):
cache the result with the given ttl and clear the pending slot. -/
def dedupeSettleSuccess (s : DedupState α) (k : String) (v : α) (ttl : Option Nat)
    (now : Nat) : DedupState α :=
  { cache := setCached s.cache k v ttl now, pending := pendingDelete s.pending k }

/-- Settlement of a failed producer (the `.catch` handler, lines 213-216):
clear the pending slot, caching nothing. -/
def dedupeSettleFailure (s : DedupState α) (k : String) : DedupState α :=
  { s with pending := pendingDelete s.pending k }

/-- A burst of `dedupedRequest` calls for one key at the given instants, with
no settlement in between (all producers still in flight). -/
def dedupeRun (s : DedupState α) (k : String) : List Nat → List (DedupOutcome α) × DedupState α
  | [] => ([], s)
  | t :: ts =>
    let step := dedupedRequest s k t
    let rest := dedupeRun step.2 k ts
    (step.1 :: rest.1, rest.2)

/-- Number of producer invocations in a burst's outcome list. -/
def countStarted (os : List (DedupOutcome α)) : Nat :=
  (os.filter (fun o => o.isStarted)).length

end OptimizedGoogleCalendar

namespace OptimizedAuthService

/-- `TOKEN_EXPIRY_BUFFER` of `OptimizedAuthService.ts` (300000 ms). -/
def TOKEN_EXPIRY_BUFFER : Nat := 300000

/-- The deduplication-relevant state of `OptimizedAuthService`:
`state.isAuthenticated`, `state.token?.expires_at` (none when
`state.token` is null), credential presence, the pending authentication
promise (`authPromise`, identified by a promise id), and the pending refresh
promise with its start timestamp (`refreshPromise`). -/
structure AuthServiceState where
  isAuthenticated : Bool
  tokenExpiresAt : Option Nat
  hasCredentials : Bool
  authPromise : Option Nat
  refreshPromise : Option (Nat × Nat)
deriving DecidableEq

/-- Embeds `isAuthenticated()` (lines 89-106): false without flag or token;
otherwise the token must not expire within `TOKEN_EXPIRY_BUFFER`. -/
def isAuthenticatedChk (s : AuthServiceState) (now : Nat) : Bool :=
  match s.tokenExpiresAt with
  | none => false
  | some e => s.isAuthenticated && !(e ≤ now + TOKEN_EXPIRY_BUFFER)

/-- Observable effect of the synchronous prefix of an auth entry point:
join an in-flight exchange, start a fresh token exchange
(`performAuthentication` / `performRefresh`), serve the valid cached token,
or fail fast for missing credentials. -/
inductive AuthCall where
  | joined (id : Nat)
  | started (id : Nat)
  | fastPath
  | noCreds
deriving DecidableEq

/-- True iff the call started a fresh token exchange. -/
def AuthCall.isStarted : AuthCall → Bool
  | .started _ => true
  | _ => false

/-- Embeds the synchronous prefix of `authenticate()` (lines 126-140): when
`authPromise` is non-null the caller joins it; otherwise
`performAuthentication()` is started and recorded in `authPromise` before
control yields. `freshId` names the new promise. -/
def authenticate (s : AuthServiceState) (freshId : Nat) : AuthCall × AuthServiceState :=
  match s.authPromise with
  | some p => (.joined p, s)
  | none => (.started freshId, { s with authPromise := some freshId })

/-- Settlement of the pending authentication (the `finally` clause):
`authPromise` is reset to null. -/
def authSettle (s : AuthServiceState) : AuthServiceState :=
  { s with authPromise := none }

/-- Embeds the synchronous prefix of `getAccessToken()` (lines 111-120): the
fast path returns the cached token when `isAuthenticated()` holds; otherwise
the call falls through to `authenticate()`. -/
def getAccessToken (s : AuthServiceState) (now freshId : Nat) : AuthCall × AuthServiceState :=
  if isAuthenticatedChk s now then (.fastPath, s)
  else authenticate s freshId

/-- Embeds the synchronous prefix of `refreshToken()` (lines 177-198): a
pending refresh younger than 30000 ms is joined; without credentials the call
fails; otherwise `performRefresh()` is started and recorded (overwriting any
stale `refreshPromise` slot). -/
def refreshToken (s : AuthServiceState) (now freshId : Nat) : AuthCall × AuthServiceState :=
  let start : AuthCall × AuthServiceState :=
    if s.hasCredentials then
      (.started freshId, { s with refreshPromise := some (freshId, now) })
    else (.noCreds, s)
  match s.refreshPromise with
  | some (p, ts) => if now - ts < 30000 then (.joined p, s) else start
  | none => start

/-- Number of token exchanges currently in flight: the `authPromise` slot plus
the `refreshPromise` slot (the two slots are independent). -/
def inFlightExchanges (s : AuthServiceState) : Nat :=
  (if s.authPromise.isSome then 1 else 0) + (if s.refreshPromise.isSome then 1 else 0)

/-- A burst of `getAccessToken` calls, each given by its instant and a fresh
promise id, with no settlement in between (the exchange still in flight). -/
def gatRun (s : AuthServiceState) : List (Nat × Nat) → List AuthCall × AuthServiceState
  | [] => ([], s)
  | c :: cs =>
    let step := getAccessToken s c.1 c.2
    let rest := gatRun step.2 cs
    (step.1 :: rest.1, rest.2)

/-- Number of fresh token exchanges in a burst's outcome list. -/
def countExchanges (os : List AuthCall) : Nat :=
  (os.filter (fun o => o.isStarted)).length

end OptimizedAuthService

namespace GoogleTasksClient

/-- `GoogleTasksError` of `src/unnamed/part_000` (lines 201-211): message plus
optional HTTP code. -/
structure GoogleTasksError where
  message : String
  code : Option Nat := none
deriving DecidableEq

/-- Token state of `GoogleTasksClient`: the stored `accessToken` and
`tokenExpiry` fields. -/
structure ClientAuthState where
  accessToken : Option String
  tokenExpiry : Nat
deriving DecidableEq

/-- The token endpoint's answer as consumed by `authenticate`: HTTP status,
response text, and the parsed JSON fields. -/
structure TokenResponse where
  status : Nat
  text : String
  access_token : String
  expires_in : Nat
deriving DecidableEq

/-- The cached-token guard of `authenticate`:
`this.accessToken && this.tokenExpiry > now + 300000` (an empty string is
falsy in JS). -/
def tokenCacheValid (s : ClientAuthState) (now : Nat) : Bool :=
  match s.accessToken with
  | some tok => !(tok = "") && decide (now + 300000 < s.tokenExpiry)
  | none => false

/-- Embeds `GoogleTasksClient.authenticate` (`src/unnamed/part_000`, lines
290-324): return the cached token while valid; otherwise exchange the JWT and
— only when the response status is 200 — replace `accessToken` and
`tokenExpiry`; a non-200 response raises `GoogleTasksError` and leaves the
stored fields untouched. The network interaction is abstracted by passing the
endpoint's `resp`. -/
def authenticate (s : ClientAuthState) (now : Nat) (resp : TokenResponse) :
    Except GoogleTasksError String × ClientAuthState :=
  if tokenCacheValid s now then (.ok (s.accessToken.getD ""), s)
  else if resp.status ≠ 200 then
    (.error ⟨"Authentication failed: " ++ resp.text, some resp.status⟩, s)
  else
    (.ok resp.access_token, ⟨some resp.access_token, now + resp.expires_in * 1000⟩)

/-- `DEFAULT_TASK_LIST_NAME` (line 91). -/
def DEFAULT_TASK_LIST_NAME : String := "Obsidian Tasks"

/-- A Google Tasks task list as returned by the API. -/
structure GoogleTaskList where
  title : String
  id : String
deriving DecidableEq

/-- Task-list cache state of `GoogleTasksClient`: the memoised
`obsidianTasksListId` field. -/
structure ListClientState where
  obsidianTasksListId : Option String
deriving DecidableEq

/-- Network behavior backing one `getOrCreateObsidianTaskList` call: what
`listTaskLists` would return and what `createTaskList` would create. -/
structure ListNetwork where
  lists : List GoogleTaskList
  created : GoogleTaskList
deriving DecidableEq

/-- The network path of `getOrCreateObsidianTaskList`: list the task lists
(one request), find the list titled `Obsidian Tasks`, create it when absent
(a second request), memoise and return its id. -/
def fetchObsidianTaskList (net : ListNetwork) : String × ListClientState × Nat :=
  match net.lists.find? (fun l => l.title = DEFAULT_TASK_LIST_NAME) with
  | some l => (l.id, ⟨some l.id⟩, 1)
  | none => (net.created.id, ⟨some net.created.id⟩, 2)

/-- Embeds `getOrCreateObsidianTaskList` (`src/unnamed/part_000`, lines
420-434). The memoised id short-circuits when truthy (non-null, non-empty);
otherwise the network path runs. The third component counts the network
requests performed by the call. -/
def getOrCreateObsidianTaskList (s : ListClientState) (net : ListNetwork) :
    String × ListClientState × Nat :=
  match s.obsidianTasksListId with
  | some id => if id = "" then fetchObsidianTaskList net else (id, s, 0)
  | none => fetchObsidianTaskList net

/-- A sequence of non-overlapping `getOrCreateObsidianTaskList` calls, each
with its own backing network behavior, collecting (result, request count)
pairs. -/
def taskListRun (s : ListClientState) : List ListNetwork → List (String × Nat) × ListClientState
  | [] => ([], s)
  | net :: nets =>
    let step := getOrCreateObsidianTaskList s net
    let rest := taskListRun step.2.1 nets
    ((step.1, step.2.2) :: rest.1, rest.2)

end GoogleTasksClient

namespace OptimizedGoogleCalendar

/-- An entry of `calendarList.list()` as consumed by
`getOrCreateObsidianCalendar`: summary plus optional id. -/
structure CalendarEntry where
  summary : String
  id : Option String
deriving DecidableEq

/-- Calendar-id state of `OptimizedGoogleCalendarService`: the memoised
`cachedCalendarId` field and the response cache (which holds the
`"calendarId"` key with `ttl = Infinity`). -/
structure CalState where
  cachedCalendarId : Option String
  cache : Cache String
deriving DecidableEq

/-- Network behavior backing one `getOrCreateObsidianCalendar` call: what
`listCalendars` would return and the id of the calendar that
`calendars.insert` would create (`none` when the response carries no id). -/
structure CalNetwork where
  calendars : List CalendarEntry
  createdId : Option String
deriving DecidableEq

/-- The producer of `getOrCreateObsidianCalendar` (the closure passed to
`dedupedRequest`, lines 452-480): search `listCalendars` for the configured
name; a found calendar with a truthy id is memoised and returned (1 request);
otherwise the calendar is created (a 2nd request), a missing id raises, and a
created id is memoised and returned. -/
def calendarProducer (calendarName : String) (net : CalNetwork) :
    Except String (String × Nat) :=
  match net.calendars.find? (fun c => c.summary = calendarName) with
  | some c =>
    match c.id with
    | some cid =>
      if cid = "" then
        match net.createdId with
        | some nid => if nid = "" then .error "Calendar created but no ID returned"
                      else .ok (nid, 2)
        | none => .error "Calendar created but no ID returned"
      else .ok (cid, 1)
    | none =>
      match net.createdId with
      | some nid => if nid = "" then .error "Calendar created but no ID returned"
                    else .ok (nid, 2)
      | none => .error "Calendar created but no ID returned"
  | none =>
    match net.createdId with
    | some nid => if nid = "" then .error "Calendar created but no ID returned"
                  else .ok (nid, 2)
    | none => .error "Calendar created but no ID returned"

/-- The cache-miss path of `getOrCreateObsidianCalendar`: `dedupedRequest`'s
own cache check (a `!== null` test, so an empty cached string is returned
without memoising — the outer truthy check already failed), then the producer,
which on success memoises the id into `cachedCalendarId` and caches it with
`ttl = Infinity`. Returns (result, new state, network request count). -/
def calendarFetch (calendarName : String) (s : CalState) (now : Nat) (net : CalNetwork) :
    Except String String × CalState × Nat :=
  let hit := getCached s.cache "calendarId" now
  match hit.1 with
  | some cid =>
    if cid = "" then (.ok cid, { s with cache := hit.2 }, 0)
    else (.ok cid, { cachedCalendarId := some cid, cache := hit.2 }, 0)
  | none =>
    match calendarProducer calendarName net with
    | .ok (cid, reqs) =>
      (.ok cid,
       { cachedCalendarId := some cid,
         cache := setCached hit.2 "calendarId" cid none now }, reqs)
    | .error e => (.error e, { s with cache := hit.2 }, 2)

/-- Embeds `getOrCreateObsidianCalendar` (lines 438-482) for a call that does
not overlap another in-flight call (so the dedup map holds no pending entry
for `"calendarId"`). The truthy `cachedCalendarId` member short-circuits with
no network traffic; otherwise the `calendarFetch` path runs. -/
def getOrCreateObsidianCalendar (calendarName : String) (s : CalState) (now : Nat)
    (net : CalNetwork) : Except String String × CalState × Nat :=
  match s.cachedCalendarId with
  | some id => if id = "" then calendarFetch calendarName s now net else (.ok id, s, 0)
  | none => calendarFetch calendarName s now net

/-- A sequence of non-overlapping `getOrCreateObsidianCalendar` calls,
collecting (result, request count) pairs. -/
def calendarRun (calendarName : String) (s : CalState) :
    List (Nat × CalNetwork) → List (Except String String × Nat) × CalState
  | [] => ([], s)
  | c :: cs =>
    let step := getOrCreateObsidianCalendar calendarName s c.1 c.2
    let rest := calendarRun calendarName step.2.1 cs
    ((step.1, step.2.2) :: rest.1, rest.2)

/-- `MAX_BATCH_SIZE` (line 59). -/
def MAX_BATCH_SIZE : Nat := 50

/-- The repeated `batchQueue.splice(0, MAX_BATCH_SIZE)` of `processBatch`
(lines 328-354): split the queue into successive flush cycles of at most
`maxSize` operations, in enqueue order. The fuel argument bounds the number
of cycles; `chunkBatches` supplies the queue length, which always suffices
for positive `maxSize`. -/
def chunkGo (maxSize : Nat) : Nat → List β → List (List β)
  | _, [] => []
  | 0, _ :: _ => []
  | f + 1, x :: xs => (x :: xs).take maxSize :: chunkGo maxSize f ((x :: xs).drop maxSize)

/-- The flush cycles that `processBatch` performs for a queue, in order. -/
def chunkBatches (maxSize : Nat) (q : List β) : List (List β) :=
  chunkGo maxSize q.length q

/-- `Promise.allSettled` over one flush cycle (lines 336-348): every
operation settles with its own individual outcome `exec op`; no operation's
failure affects another's settlement. -/
def batchSettle (exec : β → Except ε ρ) (batch : List β) : List (β × Except ε ρ) :=
  batch.map (fun op => (op, exec op))

/-- Settlements of all flush cycles for a queue. -/
def processAll (maxSize : Nat) (exec : β → Except ε ρ) (q : List β) :
    List (List (β × Except ε ρ)) :=
  (chunkBatches maxSize q).map (batchSettle exec)

/-- Mutable rate-limiter state of the service (lines 83-85):
`requestTimestamps` and `lastRequestTime`. -/
structure RLState where
  requestTimestamps : List Nat
  lastRequestTime : Nat
deriving DecidableEq

/-- One complete `throttleRequest()` call (lines 230-256) under sequential
(non-overlapping) execution, entered at instant `now`:
1. `requestTimestamps` is re-assigned to its entries younger than 1 s;
2. if at least `limit` remain, wait until the oldest leaves the window plus a
   10 ms margin and re-run the whole body (the recursion of the source);
3. otherwise, after the minimum-interval delay if needed, push the admission
   instant and record it in `lastRequestTime`.
Returns the state after the call and the admission instant. The fuel bounds
the recursion of step 2; under the invariants proved below a fuel of 2 is
never exhausted (the fallback admits immediately). -/
def throttleOnce (limit minI : Nat) : Nat → RLState → Nat → RLState × Nat
  | 0, s, now => (⟨s.requestTimestamps ++ [now], now⟩, now)
  | fuel + 1, s, now =>
    let ts := s.requestTimestamps.filter (fun t => now - t < 1000)
    if limit ≤ ts.length then
      let oldest := ts.headD 0
      let waitTime := 1000 - (now - oldest) + 10
      throttleOnce limit minI fuel ⟨ts, s.lastRequestTime⟩ (now + waitTime)
    else
      let timeSince := now - s.lastRequestTime
      let p := if timeSince < minI then now + (minI - timeSince) else now
      (⟨ts ++ [p], p⟩, p)

/-- Sequential bursts of `throttleRequest` calls: each call is entered when
the previous one has completed, so its entry instant is at least the previous
admission instant (`max t s.lastRequestTime` clamps the requested instants
accordingly). Returns the admission instants in order. -/
def seqThrottle (limit minI : Nat) (s : RLState) : List Nat → List Nat
  | [] => []
  | t :: ts =>
    let now := max t s.lastRequestTime
    let step := throttleOnce limit minI 2 s now
    step.2 :: seqThrottle limit minI step.1 ts

/-- Number of admission instants falling in the window `[t, t + 1000)`. -/
def windowCount (admissions : List Nat) (t : Nat) : Nat :=
  (admissions.filter (fun a => decide (t ≤ a) && decide (a < t + 1000))).length

/-- Continuation of a single `throttleRequest()` task at a timer callback:
`run` re-enters the body (initial entry or the recursion after the window
wait); `pushAt` performs the push after the minimum-interval delay (the code
does not re-check any condition there); `finished` is a settled call. -/
inductive ThrPhase where
  | run
  | pushAt
  | finished
deriving DecidableEq

/-- One concurrent `throttleRequest()` call: its identity, its continuation,
and the instant at which its timer fires. -/
structure ThrTask where
  id : Nat
  phase : ThrPhase
  wake : Nat
deriving DecidableEq

/-- State of the event-loop simulation: the shared rate-limiter fields, the
outstanding tasks, and the admission instants so far. -/
structure SimState where
  rl : RLState
  tasks : List ThrTask
  admissions : List Nat
deriving DecidableEq

/-- The event loop's next callback: the first unfinished task with the
smallest wake instant (JS timers fire in time order, ties in registration
order). -/
def pickNext (ts : List ThrTask) : Option ThrTask :=
  ts.foldl
    (fun acc t =>
      if t.phase = ThrPhase.finished then acc
      else
        match acc with
        | none => some t
        | some b => if t.wake < b.wake then some t else acc)
    none

/-- Replace task `i`'s continuation. -/
def setTask (ts : List ThrTask) (i : Nat) (ph : ThrPhase) (wake : Nat) : List ThrTask :=
  ts.map (fun t => if t.id = i then ⟨i, ph, wake⟩ else t)

/-- Run one timer callback of task `tk` at instant `tk.wake`, mirroring the
branches of `throttleRequest` (lines 230-256). In the `pushAt` continuation
the admission is pushed with no re-check of either limit, exactly as in the
source. -/
def runTask (limit minI : Nat) (st : SimState) (tk : ThrTask) : SimState :=
  let now := tk.wake
  match tk.phase with
  | .finished => st
  | .pushAt =>
    { rl := ⟨st.rl.requestTimestamps ++ [now], now⟩,
      tasks := setTask st.tasks tk.id .finished now,
      admissions := st.admissions ++ [now] }
  | .run =>
    let ts := st.rl.requestTimestamps.filter (fun t => now - t < 1000)
    if limit ≤ ts.length then
      let oldest := ts.headD 0
      let waitTime := 1000 - (now - oldest) + 10
      { st with
        rl := ⟨ts, st.rl.lastRequestTime⟩,
        tasks := setTask st.tasks tk.id .run (now + waitTime) }
    else
      let timeSince := now - st.rl.lastRequestTime
      if timeSince < minI then
        { st with
          rl := ⟨ts, st.rl.lastRequestTime⟩,
          tasks := setTask st.tasks tk.id .pushAt (now + (minI - timeSince)) }
      else
        { rl := ⟨ts ++ [now], now⟩,
          tasks := setTask st.tasks tk.id .finished now,
          admissions := st.admissions ++ [now] }

/-- Run the event loop until every task settles or the fuel is spent. -/
def simulate (limit minI : Nat) : Nat → SimState → SimState
  | 0, st => st
  | f + 1, st =>
    match pickNext st.tasks with
    | none => st
    | some tk => simulate limit minI f (runTask limit minI st tk)

/-- Six concurrent `throttleRequest` calls all entered at t = 2000 on a fresh
service: the burst of the testable property (3 × `ratePerSecond` calls in
under one second for `ratePerSecond = 2`). -/
def sixCallBurst : SimState :=
  { rl := ⟨[], 0⟩,
    tasks := (List.range 6).map (fun i => ⟨i, ThrPhase.run, 2000⟩),
    admissions := [] }

/-- The inner try/catch of `getEvent`'s attempt (lines 422-434): a successful
response resolves to the event; a 404 error resolves to null before the retry
classifier ever sees it; any other error propagates to the classifier. -/
def getEventAttempt (outcome : Except ApiError α) : Except ApiError (Option α) :=
  match outcome with
  | .ok ev => .ok (some ev)
  | .error e => if e.code = JsCode.num 404 then .ok none else .error e

/-- The producer of `getEvent` (lines 416-436): `withRetry` over the guarded
attempts. `outcomes i` is the raw result of the i-th `events.get` call. -/
def getEvent (outcomes : Nat → Except ApiError α) (maxRetries baseDelay : Nat) :
    Except ApiError (Option α) × List Nat :=
  withRetry (fun i => getEventAttempt (outcomes i)) maxRetries baseDelay

end OptimizedGoogleCalendar

/-- The exponential-backoff delay sequence `baseDelay * 2 ^ attempt` for
attempts `c, c + 1, ..., c + r - 1`. -/
def backoffDelays (b : Nat) : Nat → Nat → List Nat
  | _, 0 => []
  | c, r + 1 => b * 2 ^ c :: backoffDelays b (c + 1) r

/-- Modelled from the spec: the claimed retryable classification, following
the claim's wording — an error is retryable iff its code is 429, its code
lies in [500, 600), it is one of the connection-level error codes in
`connCodes`, or its message contains the quota marker. The claim's own
category "connection-reset/timeout error codes" is
`["ECONNRESET", "ETIMEDOUT"]`. -/
def specRetryable (connCodes : List String) : Option ApiError → Prop
  | none => False
  | some err =>
    err.code = JsCode.num 429 ∨
    (∃ n : Int, err.code = JsCode.num n ∧ 500 ≤ n ∧ n < 600) ∨
    (∃ s : String, err.code = JsCode.str s ∧ s ∈ connCodes) ∨
    (∃ m : String, err.message = some m ∧ strIncludes m "quota" = true)

/-! ## Helper lemmas about keyed association lists -/

lemma find?_filter_ne {β : Type} (l : List (String × β)) (k : String) :
    (l.filter (fun q => !(q.1 = k))).find? (fun q => q.1 = k) = none := by
  induction l with
  | nil => rfl
  | cons h t ih =>
    by_cases hk : h.1 = k
    · simp [List.filter_cons, hk, ih]
    · simp [List.filter_cons, hk, List.find?_cons, ih]

lemma find?_keyed_append_single {β : Type} (l : List (String × β)) (k : String) (v : β)
    (hl : l.find? (fun q => q.1 = k) = none) :
    (l ++ [(k, v)]).find? (fun q => q.1 = k) = some (k, v) := by
  rw [List.find?_append, hl]
  simp [List.find?_cons]

namespace OptimizedGoogleCalendar

lemma pendingFind_pendingSet (p : PendingMap) (k : String) (ts : Nat) :
    pendingFind (pendingSet p k ts) k = some ts := by
  unfold pendingFind pendingSet
  rw [find?_keyed_append_single _ _ _ (find?_filter_ne p k)]
  rfl

lemma dedupe_join_state {α : Type} (s : DedupState α) (k : String) (u ts : Nat)
    (hc : cacheFind s.cache k = none) (hp : pendingFind s.pending k = some ts)
    (hw : u - ts < REQUEST_DEDUP_WINDOW) :
    dedupedRequest s k u = (.joined ts, s) := by
  simp [dedupedRequest, getCached, hc, hp, hw]

lemma dedupe_join_run {α : Type} (s : DedupState α) (k : String) (ts : Nat)
    (hc : cacheFind s.cache k = none) (hp : pendingFind s.pending k = some ts) :
    ∀ us : List Nat, (∀ u ∈ us, u - ts < REQUEST_DEDUP_WINDOW) →
      countStarted (dedupeRun s k us).1 = 0 := by
  intro us
  induction us with
  | nil => intro _; rfl
  | cons u rest ih =>
    intro hall
    have hstep : dedupedRequest s k u = (.joined ts, s) :=
      dedupe_join_state s k u ts hc hp (hall u (by simp))
    simp only [dedupeRun, hstep]
    have : countStarted ((DedupOutcome.joined ts : DedupOutcome α) :: (dedupeRun s k rest).1)
        = countStarted (dedupeRun s k rest).1 := by
      simp [countStarted, DedupOutcome.isStarted]
    rw [this]
    exact ih (fun v hv => hall v (by simp [hv]))

end OptimizedGoogleCalendar

/-! ## Claim C1 -/

open OptimizedGoogleCalendar in
/-- Claim C1, counterexample: the claim says a caller arriving while a pending
request for the key exists always joins it and never re-invokes the producer.
On the code, a producer started at t = 0 for key `k` and still unsettled is
not joined by a call at t = 100 (the coalescing window is strict): the pending
entry is present with timestamp 0, yet the second `dedupedRequest` call
reports `started`, a second concurrent producer invocation for `k`. -/
theorem claimC1_counterexample :
    pendingFind (dedupedRequest (⟨[], []⟩ : DedupState Nat) "k" 0).2.pending "k" = some 0 ∧
    (dedupedRequest (dedupedRequest (⟨[], []⟩ : DedupState Nat) "k" 0).2 "k" 100).1
      = DedupOutcome.started ∧
    (dedupedRequest (⟨[], []⟩ : DedupState Nat) "k" 0).1 = DedupOutcome.started := by
  refine ⟨by decide, by decide, by decide⟩

open OptimizedGoogleCalendar in
/-- Claim C1, amended: when `dedupedRequest(k)` is called while a pending
request for `k` exists that was started strictly less than
`REQUEST_DEDUP_WINDOW` (100 ms) earlier, the caller is returned that pending
promise and the producer is not invoked again; consequently, for a burst of
calls for one uncached key whose instants all lie strictly within 100 ms of
the first, exactly one producer invocation happens and every caller holds the
same promise (hence the same result or error). A pending entry 100 ms old or
older is not joined: a fresh producer is started even if it is unsettled. -/
theorem claimC1_amended :
    (∀ (α : Type) (s : DedupState α) (k : String) (u ts : Nat),
      cacheFind s.cache k = none →
      pendingFind s.pending k = some ts →
      u - ts < REQUEST_DEDUP_WINDOW →
      dedupedRequest s k u = (.joined ts, s)) ∧
    (∀ (α : Type) (s : DedupState α) (k : String) (t : Nat) (rest : List Nat),
      cacheFind s.cache k = none →
      pendingFind s.pending k = none →
      (∀ u ∈ rest, u - t < REQUEST_DEDUP_WINDOW) →
      countStarted (dedupeRun s k (t :: rest)).1 = 1) := by
  constructor
  · intro α s k u ts hc hp hw
    exact dedupe_join_state s k u ts hc hp hw
  · intro α s k t rest hc hp hall
    have hfirst : dedupedRequest s k t =
        (.started, ⟨s.cache, pendingSet s.pending k t⟩) := by
      simp [dedupedRequest, getCached, hc, hp]
    simp only [dedupeRun, hfirst]
    have hrest : countStarted (dedupeRun (⟨s.cache, pendingSet s.pending k t⟩ : DedupState α)
        k rest).1 = 0 :=
      dedupe_join_run ⟨s.cache, pendingSet s.pending k t⟩ k t hc
        (pendingFind_pendingSet s.pending k t) rest hall
    simp [countStarted, DedupOutcome.isStarted] at hrest ⊢
    exact hrest

open OptimizedGoogleCalendar in
/-- Witness for `claimC1_amended` at concrete inputs: a pending entry started
at t = 0 is joined at t = 40, and a burst at instants 5, 5, 5, 40, 104 over
an empty state invokes the producer exactly once. -/
theorem claimC1_witness :
    dedupedRequest (⟨[], [("k", 0)]⟩ : DedupState Nat) "k" 40
      = (.joined 0, ⟨[], [("k", 0)]⟩) ∧
    countStarted (dedupeRun (⟨[], []⟩ : DedupState Nat) "k" [5, 5, 5, 40, 104]).1 = 1 :=
  ⟨claimC1_amended.1 Nat ⟨[], [("k", 0)]⟩ "k" 40 0 (by decide) (by decide) (by decide),
   claimC1_amended.2 Nat ⟨[], []⟩ "k" 5 [5, 40, 104] (by decide) (by decide) (by decide)⟩

/-! ## Claim C2 -/

namespace OptimizedAuthService

lemma countExchanges_cons (o : AuthCall) (os : List AuthCall) :
    countExchanges (o :: os) = (if o.isStarted = true then 1 else 0) + countExchanges os := by
  unfold countExchanges
  rw [List.filter_cons]
  split <;> simp [Nat.add_comm]

lemma gat_no_start {s : AuthServiceState} {p : Nat} (h : s.authPromise = some p) :
    ∀ calls : List (Nat × Nat), countExchanges (gatRun s calls).1 = 0 ∧ (gatRun s calls).2 = s := by
  intro calls
  induction calls with
  | nil => exact ⟨rfl, rfl⟩
  | cons c cs ih =>
    have h1 : (getAccessToken s c.1 c.2).1.isStarted = false := by
      unfold getAccessToken authenticate
      rw [h]
      split <;> rfl
    have h2 : (getAccessToken s c.1 c.2).2 = s := by
      unfold getAccessToken authenticate
      rw [h]
      split <;> rfl
    refine ⟨?_, ?_⟩
    · simp only [gatRun]
      rw [countExchanges_cons, h1, h2]
      simpa using ih.1
    · simp only [gatRun]
      rw [h2]
      exact ih.2

end OptimizedAuthService

open OptimizedAuthService in
/-- Claim C2, counterexample: the claim says at most one token authentication
or refresh is in flight at any time. The code keeps two independent
deduplication slots (`authPromise` and `refreshPromise`) that do not check
each other: from a fresh state with credentials, `refreshToken()` starts one
token exchange, and `authenticate()` called while that refresh is still
pending starts a second one, so two exchanges are in flight at once. -/
theorem claimC2_counterexample :
    (refreshToken ⟨false, none, true, none, none⟩ 0 1).1 = AuthCall.started 1 ∧
    (authenticate (refreshToken ⟨false, none, true, none, none⟩ 0 1).2 2).1
      = AuthCall.started 2 ∧
    inFlightExchanges (authenticate (refreshToken ⟨false, none, true, none, none⟩ 0 1).2 2).2
      = 2 := by
  refine ⟨by decide, by decide, by decide⟩

open OptimizedAuthService in
/-- Claim C2, amended: each deduplication slot admits at most one exchange —
a call to `authenticate()` while `authPromise` is pending joins that same
promise and starts no new token exchange, and a burst of `getAccessToken()`
calls after token expiry (the first of which sees no pending authentication)
triggers exactly one token exchange no matter how many callers join; but the
`authPromise` and `refreshPromise` slots are independent, so an
`authenticate()` concurrent with a pending `refreshToken()` can put two
exchanges in flight (see the counterexample). -/
theorem claimC2_amended :
    (∀ (s : AuthServiceState) (p id : Nat),
      s.authPromise = some p → authenticate s id = (.joined p, s)) ∧
    (∀ (s : AuthServiceState) (c : Nat × Nat) (rest : List (Nat × Nat)),
      s.authPromise = none → isAuthenticatedChk s c.1 = false →
      countExchanges (gatRun s (c :: rest)).1 = 1) := by
  constructor
  · intro s p id h
    unfold authenticate
    rw [h]
  · intro s c rest hnone hchk
    have hstep : getAccessToken s c.1 c.2
        = (AuthCall.started c.2, { s with authPromise := some c.2 }) := by
      unfold getAccessToken authenticate
      rw [hnone, hchk]
      rfl
    simp only [gatRun, hstep]
    have hrest := gat_no_start (s := { s with authPromise := some c.2 }) (p := c.2) rfl rest
    simp [countExchanges, AuthCall.isStarted] at hrest ⊢
    exact hrest.1

open OptimizedAuthService in
/-- Witness for `claimC2_amended`: a pending authentication with id 7 is
joined, and ten concurrent `getAccessToken` calls at t = 900000 on a state
whose token expired at t = 1000 trigger exactly one token exchange. -/
theorem claimC2_witness :
    authenticate ⟨true, some 1000, true, some 7, none⟩ 9 = (.joined 7, ⟨true, some 1000, true, some 7, none⟩) ∧
    countExchanges (gatRun ⟨true, some 1000, true, none, none⟩
      [(900000, 1), (900000, 2), (900000, 3), (900000, 4), (900000, 5), (900000, 6),
       (900000, 7), (900000, 8), (900000, 9), (900000, 10)]).1 = 1 :=
  ⟨claimC2_amended.1 ⟨true, some 1000, true, some 7, none⟩ 7 9 (by decide),
   claimC2_amended.2 ⟨true, some 1000, true, none, none⟩ (900000, 1)
     [(900000, 2), (900000, 3), (900000, 4), (900000, 5), (900000, 6),
      (900000, 7), (900000, 8), (900000, 9), (900000, 10)] (by decide) (by decide)⟩

/-! ## Claim C5 -/

lemma withRetryGo_persistent {α : Type} (retryable : ApiError → Bool) (e : ApiError)
    (he : retryable e = true) (b : Nat) :
    ∀ (r c : Nat), withRetryGo retryable (fun _ => (.error e : Except ApiError α)) b c r
      = (.error e, backoffDelays b c r) := by
  intro r
  induction r with
  | zero => intro c; simp [withRetryGo, backoffDelays]
  | succ r ih =>
    intro c
    simp [withRetryGo, backoffDelays, he, ih (c + 1)]

lemma backoffDelays_range (b : Nat) :
    ∀ (r c : Nat), backoffDelays b c r = (List.range r).map (fun i => b * 2 ^ (c + i)) := by
  intro r
  induction r with
  | zero => intro c; rfl
  | succ r ih =>
    intro c
    rw [backoffDelays, ih (c + 1), List.range_succ_eq_map]
    simp only [List.map_cons, List.map_map]
    refine congrArg₂ List.cons (by simp) ?_
    refine List.map_congr_left ?_
    intro a _
    have h : c + 1 + a = c + (a + 1) := by omega
    simp [Function.comp, h]

open OptimizedGoogleCalendar in
/-- Claim C5, counterexample: with `maxRetries = 3`, `baseDelay = 1000` the
claim places the attempts of a persistently failing retryable call at
t = 0, 1000, 2000, 4000 ms. On the code the waits between attempts are
1000, 2000, 4000 ms, so the attempts occur at t = 0, 1000, 3000, 7000 ms —
not at the claimed instants. -/
theorem claimC5_counterexample :
    attemptTimes (withRetry (fun _ => (.error ⟨.num 503, none⟩ : Except ApiError Nat)) 3 1000).2
      = [0, 1000, 3000, 7000] ∧
    ([0, 1000, 3000, 7000] : List Nat) ≠ [0, 1000, 2000, 4000] ∧
    (withRetry (fun _ => (.error ⟨.num 503, none⟩ : Except ApiError Nat)) 3 1000).1
      = .error ⟨.num 503, none⟩ := by
  refine ⟨by decide, by decide, rfl⟩

open OptimizedGoogleCalendar GoogleCalendar in
/-- Claim C5, amended: on every retryable failure with attempts remaining,
`withRetry` (both the optimized and the plain calendar client) waits
`baseDelay * 2 ^ attempt` ms before the next attempt, so a persistently
failing retryable call with `maxRetries = 3`, `baseDelay = 1000` is attempted
at approximately t = 0, 1000, 3000, 7000 ms; exhausting `maxRetries`
re-raises the last observed error unchanged (the attempt count appears only
in the log message, not on the raised error). -/
theorem claimC5_amended :
    (∀ (e : ApiError) (m b : Nat),
      OptimizedGoogleCalendar.isRetryableError (some e) = true →
      OptimizedGoogleCalendar.withRetry (fun _ => (.error e : Except ApiError Nat)) m b
        = (.error e, backoffDelays b 0 m)) ∧
    (∀ (e : ApiError) (m b : Nat),
      GoogleCalendar.isRetryableError (some e) = true →
      GoogleCalendar.withRetry (fun _ => (.error e : Except ApiError Nat)) m b
        = (.error e, backoffDelays b 0 m)) ∧
    (∀ (b c r : Nat), backoffDelays b c r = (List.range r).map (fun i => b * 2 ^ (c + i))) ∧
    backoffDelays 1000 0 3 = [1000, 2000, 4000] ∧
    attemptTimes (backoffDelays 1000 0 3) = [0, 1000, 3000, 7000] := by
  refine ⟨?_, ?_, ?_, by decide, by decide⟩
  · intro e m b he
    exact withRetryGo_persistent _ e he b m 0
  · intro e m b he
    exact withRetryGo_persistent _ e he b m 0
  · intro b c r
    exact backoffDelays_range b r c

open OptimizedGoogleCalendar in
/-- Witness for `claimC5_amended`: a persistent 503 with `maxRetries = 3`,
`baseDelay = 1000` re-raises the 503 after backoff delays 1000, 2000, 4000. -/
theorem claimC5_witness :
    OptimizedGoogleCalendar.withRetry
        (fun _ => (.error ⟨.num 429, none⟩ : Except ApiError Nat)) 3 1000
      = (.error ⟨.num 429, none⟩, backoffDelays 1000 0 3) :=
  claimC5_amended.1 ⟨.num 429, none⟩ 3 1000 (by decide)

/-! ## Claim C9 -/

open GoogleTasksClient in
/-- Claim C9, confirmed: `GoogleTasksClient.authenticate` is atomic on
failure — whenever the cached token is not valid and the token-exchange
response has a status other than 200, the call raises a `GoogleTasksError`
carrying that status and leaves `accessToken`/`tokenExpiry` exactly as they
were; conversely, the stored token state changes only on a status-200
exchange. -/
theorem claimC9_confirmed :
    (∀ (s : ClientAuthState) (now : Nat) (resp : TokenResponse),
      tokenCacheValid s now = false → resp.status ≠ 200 →
      GoogleTasksClient.authenticate s now resp
        = (.error ⟨"Authentication failed: " ++ resp.text, some resp.status⟩, s)) ∧
    (∀ (s : ClientAuthState) (now : Nat) (resp : TokenResponse),
      (GoogleTasksClient.authenticate s now resp).2 ≠ s → resp.status = 200) := by
  constructor
  · intro s now resp hcache hstatus
    unfold GoogleTasksClient.authenticate
    rw [hcache]
    simp [hstatus]
  · intro s now resp hchanged
    by_contra hne
    apply hchanged
    unfold GoogleTasksClient.authenticate
    by_cases hcache : tokenCacheValid s now <;> simp [hcache, hne]

open GoogleTasksClient in
/-- Witness for `claimC9_confirmed`: a 403 token response on a fresh client
raises and leaves the stored token state untouched. -/
theorem claimC9_witness :
    GoogleTasksClient.authenticate ⟨none, 0⟩ 5 ⟨403, "denied", "tok", 3600⟩
      = (.error ⟨"Authentication failed: denied", some 403⟩, ⟨none, 0⟩) ∧
    (403 : Nat) ≠ 200 :=
  ⟨claimC9_confirmed.1 ⟨none, 0⟩ 5 ⟨403, "denied", "tok", 3600⟩ (by decide) (by decide),
   by decide⟩

/-! ## Claim C10 -/

namespace GoogleTasksClient

lemma taskList_cached (s : ListClientState) (net : ListNetwork) (id : String)
    (h : s.obsidianTasksListId = some id) (hne : id ≠ "") :
    getOrCreateObsidianTaskList s net = (id, s, 0) := by
  unfold getOrCreateObsidianTaskList
  rw [h]
  simp [hne]

lemma taskList_post_state (s : ListClientState) (net : ListNetwork) :
    (getOrCreateObsidianTaskList s net).2.1.obsidianTasksListId
      = some (getOrCreateObsidianTaskList s net).1 := by
  unfold getOrCreateObsidianTaskList fetchObsidianTaskList
  cases h : s.obsidianTasksListId with
  | none =>
    cases net.lists.find? (fun l => l.title = DEFAULT_TASK_LIST_NAME) <;> rfl
  | some id =>
    by_cases hid : id = ""
    · simp only [hid, if_pos rfl]
      cases net.lists.find? (fun l => l.title = DEFAULT_TASK_LIST_NAME) <;> rfl
    · simp [hid, h]

lemma taskListRun_steady (id : String) (hne : id ≠ "") :
    ∀ (nets : List ListNetwork) (s : ListClientState), s.obsidianTasksListId = some id →
      taskListRun s nets = (nets.map (fun _ => (id, 0)), s) := by
  intro nets
  induction nets with
  | nil => intro s _; rfl
  | cons net rest ih =>
    intro s h
    have hcall := taskList_cached s net id h hne
    simp only [taskListRun, hcall]
    rw [ih s h]
    simp

end GoogleTasksClient

namespace OptimizedGoogleCalendar

lemma cal_cached (name : String) (s : CalState) (now : Nat) (net : CalNetwork) (id : String)
    (h : s.cachedCalendarId = some id) (hne : id ≠ "") :
    getOrCreateObsidianCalendar name s now net = (.ok id, s, 0) := by
  unfold getOrCreateObsidianCalendar
  rw [h]
  simp [hne]

lemma cal_fetch_post (name : String) (s : CalState) (now : Nat) (net : CalNetwork)
    (id : String) (hok : (calendarFetch name s now net).1 = .ok id) (hne : id ≠ "") :
    (calendarFetch name s now net).2.1.cachedCalendarId = some id := by
  unfold calendarFetch at hok ⊢
  cases hhit : (getCached s.cache "calendarId" now).1 with
  | some cid =>
    simp only [hhit] at hok ⊢
    by_cases hcid : cid = ""
    · exfalso
      rw [if_pos hcid] at hok
      simp only [Except.ok.injEq] at hok
      rw [← hok, hcid] at hne
      exact hne rfl
    · simp only [if_neg hcid] at hok ⊢
      cases hok
      rfl
  | none =>
    cases hp : calendarProducer name net with
    | ok pr =>
      simp only [hhit, hp] at hok ⊢
      cases hok
      rfl
    | error e =>
      simp only [hhit, hp] at hok
      cases hok

lemma cal_go_post (name : String) (s : CalState) (now : Nat) (net : CalNetwork)
    (id : String) (hok : (getOrCreateObsidianCalendar name s now net).1 = .ok id)
    (hne : id ≠ "") :
    (getOrCreateObsidianCalendar name s now net).2.1.cachedCalendarId = some id := by
  unfold getOrCreateObsidianCalendar at hok ⊢
  cases hm : s.cachedCalendarId with
  | none =>
    simp only [hm] at hok ⊢
    exact cal_fetch_post name s now net id hok hne
  | some cid =>
    simp only [hm] at hok ⊢
    by_cases hcid : cid = ""
    · simp only [hcid, if_pos rfl] at hok ⊢
      exact cal_fetch_post name s now net id hok hne
    · simp only [if_neg hcid] at hok ⊢
      cases hok
      exact hm

lemma calendarRun_steady (name id : String) (hne : id ≠ "") :
    ∀ (calls : List (Nat × CalNetwork)) (s : CalState), s.cachedCalendarId = some id →
      calendarRun name s calls = (calls.map (fun _ => (Except.ok id, 0)), s) := by
  intro calls
  induction calls with
  | nil => intro s _; rfl
  | cons c rest ih =>
    intro s h
    have hcall := cal_cached name s c.1 c.2 id h hne
    simp only [calendarRun, hcall]
    rw [ih s h]
    simp

end OptimizedGoogleCalendar

open GoogleTasksClient OptimizedGoogleCalendar in
/-- Claim C10, confirmed: `getOrCreateObsidianTaskList` is idempotent per
client instance — with the memoised id present (a non-empty id, as any
successful call stores), the call returns that id with zero network requests,
and after one call that returned a non-empty id every subsequent
(non-overlapping) call returns the same id with zero further list or create
requests, so the backing list is created at most once per instance; the same
holds for `getOrCreateObsidianCalendar` through its `cachedCalendarId`
member. -/
theorem claimC10_confirmed :
    (∀ (s : ListClientState) (net : ListNetwork) (id : String),
      s.obsidianTasksListId = some id → id ≠ "" →
      getOrCreateObsidianTaskList s net = (id, s, 0)) ∧
    (∀ (s0 : ListClientState) (net : ListNetwork) (nets : List ListNetwork),
      (getOrCreateObsidianTaskList s0 net).1 ≠ "" →
      taskListRun (getOrCreateObsidianTaskList s0 net).2.1 nets
        = (nets.map (fun _ => ((getOrCreateObsidianTaskList s0 net).1, 0)),
           (getOrCreateObsidianTaskList s0 net).2.1)) ∧
    (∀ (name : String) (s : CalState) (now : Nat) (net : CalNetwork) (id : String),
      s.cachedCalendarId = some id → id ≠ "" →
      getOrCreateObsidianCalendar name s now net = (.ok id, s, 0)) ∧
    (∀ (name : String) (s0 : CalState) (now : Nat) (net : CalNetwork)
       (calls : List (Nat × CalNetwork)) (id : String),
      (getOrCreateObsidianCalendar name s0 now net).1 = .ok id → id ≠ "" →
      calendarRun name (getOrCreateObsidianCalendar name s0 now net).2.1 calls
        = (calls.map (fun _ => (Except.ok id, 0)),
           (getOrCreateObsidianCalendar name s0 now net).2.1)) := by
  refine ⟨taskList_cached, ?_, cal_cached, ?_⟩
  · intro s0 net nets hne
    exact taskListRun_steady _ hne nets _ (taskList_post_state s0 net)
  · intro name s0 now net calls id hok hne
    exact calendarRun_steady name id hne calls _ (cal_go_post name s0 now net id hok hne)

open GoogleTasksClient OptimizedGoogleCalendar in
/-- Witness for `claimC10_confirmed`: after a first call creates the list
(two requests), a later call on the updated state returns the same id with
zero requests; same for the calendar client. -/
theorem claimC10_witness :
    getOrCreateObsidianTaskList ⟨some "L1"⟩ ⟨[], ⟨"Obsidian Tasks", "L2"⟩⟩
      = ("L1", ⟨some "L1"⟩, 0) ∧
    taskListRun (getOrCreateObsidianTaskList ⟨none⟩ ⟨[], ⟨"Obsidian Tasks", "L1"⟩⟩).2.1
        [⟨[], ⟨"Obsidian Tasks", "L9"⟩⟩]
      = ([("L1", 0)], (getOrCreateObsidianTaskList ⟨none⟩ ⟨[], ⟨"Obsidian Tasks", "L1"⟩⟩).2.1) ∧
    calendarRun "Obsidian Tasks"
        (getOrCreateObsidianCalendar "Obsidian Tasks" ⟨none, []⟩ 0
          ⟨[⟨"Obsidian Tasks", some "C9"⟩], none⟩).2.1 [(5, ⟨[], none⟩)]
      = ([(Except.ok "C9", 0)],
         (getOrCreateObsidianCalendar "Obsidian Tasks" ⟨none, []⟩ 0
           ⟨[⟨"Obsidian Tasks", some "C9"⟩], none⟩).2.1) :=
  ⟨claimC10_confirmed.1 ⟨some "L1"⟩ ⟨[], ⟨"Obsidian Tasks", "L2"⟩⟩ "L1" rfl (by decide),
   claimC10_confirmed.2.1 ⟨none⟩ ⟨[], ⟨"Obsidian Tasks", "L1"⟩⟩ [⟨[], ⟨"Obsidian Tasks", "L9"⟩⟩]
     (by decide),
   claimC10_confirmed.2.2.2 "Obsidian Tasks" ⟨none, []⟩ 0 ⟨[⟨"Obsidian Tasks", some "C9"⟩], none⟩
     [(5, ⟨[], none⟩)] "C9" rfl (by decide)⟩

/-! ## Claim C6 -/

lemma find?_filter_keep {β : Type} (k : String) (q : (String × β) → Bool) :
    ∀ (l : List (String × β)) (x : String × β),
      l.find? (fun p => p.1 = k) = some x → q x = true →
      (l.filter q).find? (fun p => p.1 = k) = some x := by
  intro l
  induction l with
  | nil => intro x hfind _; simp at hfind
  | cons hd tl ih =>
    intro x hfind hq
    rw [List.find?_cons] at hfind
    by_cases hk : hd.1 = k
    · rw [decide_eq_true hk] at hfind
      cases hfind
      rw [List.filter_cons, if_pos hq, List.find?_cons, decide_eq_true hk]
    · rw [decide_eq_false hk] at hfind
      rw [List.filter_cons]
      split
      · rw [List.find?_cons, decide_eq_false hk]
        exact ih x hfind hq
      · exact ih x hfind hq

namespace OptimizedGoogleCalendar

lemma cacheFind_cacheSet (c : Cache α) (k : String) (e : CacheEntry α) :
    cacheFind (cacheSet c k e) k = some e := by
  unfold cacheFind cacheSet cacheDelete
  rw [find?_keyed_append_single _ _ _ (find?_filter_ne c k)]
  rfl

lemma cacheFind_cacheDelete (c : Cache α) (k : String) :
    cacheFind (cacheDelete c k) k = none := by
  unfold cacheFind cacheDelete
  rw [find?_filter_ne]
  rfl

lemma cacheFind_clean (c : Cache α) (now : Nat) (k : String) (e : CacheEntry α)
    (h : cacheFind c k = some e) (hs : entryStale e now = false) :
    cacheFind (cleanExpiredCache c now) k = some e := by
  unfold cacheFind at h
  obtain ⟨x, hx, hxe⟩ := Option.map_eq_some'.mp h
  unfold cacheFind cleanExpiredCache
  rw [find?_filter_keep k _ c x hx (by rw [hxe]; simp [hs])]
  simp [hxe]

lemma fresh_entry_not_stale (v : α) (ttl : Option Nat) (now : Nat) :
    entryStale (⟨v, ttl.map (now + ·)⟩ : CacheEntry α) now = false := by
  cases ttl with
  | none => rfl
  | some t =>
    simp only [entryStale, Option.map_some']
    simp only [decide_eq_false_iff_not]
    omega

lemma getCached_eq_of_find (c : Cache α) (k : String) (now : Nat) (entry : CacheEntry α)
    (h : cacheFind c k = some entry) :
    getCached c k now
      = if entryStale entry now then (none, cacheDelete c k) else (some entry.data, c) := by
  unfold getCached
  rw [h]

lemma cacheFind_setCached (c : Cache α) (k : String) (v : α) (ttl : Option Nat) (now : Nat) :
    cacheFind (setCached c k v ttl now) k = some ⟨v, ttl.map (now + ·)⟩ := by
  unfold setCached
  dsimp only
  split
  · exact cacheFind_clean _ now k _ (cacheFind_cacheSet c k _) (fresh_entry_not_stale v ttl now)
  · exact cacheFind_cacheSet c k _

end OptimizedGoogleCalendar

open OptimizedGoogleCalendar in
/-- Claim C6, counterexample: the claim says a read at `now >= entry.expiresAt`
returns null and evicts, i.e. a value stored with ttl T at t0 is absent at
every t >= t0 + T. On the code the staleness test is strict
(`entry.expires < Date.now()`), so a value stored at t0 = 0 with ttl = 5 is
still returned — and retained — by a read at exactly t = 5 = t0 + T. -/
theorem claimC6_counterexample :
    (getCached (setCached ([] : Cache Nat) "k" 42 (some 5) 0) "k" 5).1 = some 42 ∧
    cacheFind (getCached (setCached ([] : Cache Nat) "k" 42 (some 5) 0) "k" 5).2 "k"
      = some ⟨42, some 5⟩ := by
  exact ⟨by decide, by decide⟩

open OptimizedGoogleCalendar in
/-- Claim C6, amended: a cache read at time now returns null and evicts the
entry exactly when now > entry.expiresAt (at now = expiresAt the value is
still served); equivalently, a value stored with `set(key, value, ttl = T)`
at time t0 is returned unchanged by `get(key)` at every t ≤ t0 + T and is
absent — evicted, so a fresh fetch is triggered — at every t > t0 + T. -/
theorem claimC6_amended :
    (∀ (α : Type) (c : Cache α) (k : String) (now ex : Nat) (entry : CacheEntry α),
      cacheFind c k = some entry → entry.expires = some ex →
      (now ≤ ex → getCached c k now = (some entry.data, c)) ∧
      (ex < now → getCached c k now = (none, cacheDelete c k))) ∧
    (∀ (α : Type) (c : Cache α) (k : String) (v : α) (ttl t0 t : Nat),
      t ≤ t0 + ttl →
      (getCached (setCached c k v (some ttl) t0) k t).1 = some v) ∧
    (∀ (α : Type) (c : Cache α) (k : String) (v : α) (ttl t0 t : Nat),
      t0 + ttl < t →
      (getCached (setCached c k v (some ttl) t0) k t).1 = none ∧
      cacheFind (getCached (setCached c k v (some ttl) t0) k t).2 k = none) := by
  refine ⟨?_, ?_, ?_⟩
  · intro α c k now ex entry hfind hex
    have hstale : entryStale entry now = decide (ex < now) := by
      simp [entryStale, hex]
    constructor
    · intro hle
      rw [getCached_eq_of_find c k now entry hfind, hstale,
        if_neg (by simp only [decide_eq_true_eq]; omega)]
    · intro hlt
      rw [getCached_eq_of_find c k now entry hfind, hstale,
        if_pos (by simpa using hlt)]
  · intro α c k v ttl t0 t hle
    have hfind := cacheFind_setCached c k v (some ttl) t0
    simp only [Option.map_some'] at hfind
    have hstale : entryStale (⟨v, some (t0 + ttl)⟩ : CacheEntry α) t = false := by
      simp only [entryStale, decide_eq_false_iff_not]
      omega
    rw [getCached_eq_of_find _ k t _ hfind, hstale]
    rfl
  · intro α c k v ttl t0 t hlt
    have hfind := cacheFind_setCached c k v (some ttl) t0
    simp only [Option.map_some'] at hfind
    have hstale : entryStale (⟨v, some (t0 + ttl)⟩ : CacheEntry α) t = true := by
      simp [entryStale, hlt]
    rw [getCached_eq_of_find _ k t _ hfind, hstale]
    exact ⟨rfl, cacheFind_cacheDelete _ k⟩

open OptimizedGoogleCalendar in
/-- Witness for `claimC6_amended` at ttl = 5, t0 = 0: reads at t = 3 and at
the boundary t = 5 return the value, a read at t = 6 evicts. -/
theorem claimC6_witness :
    (getCached (setCached ([] : Cache Nat) "k" 7 (some 5) 0) "k" 3).1 = some 7 ∧
    ((getCached (setCached ([] : Cache Nat) "k" 7 (some 5) 0) "k" 6).1 = none ∧
      cacheFind (getCached (setCached ([] : Cache Nat) "k" 7 (some 5) 0) "k" 6).2 "k" = none) :=
  ⟨claimC6_amended.2.1 Nat [] "k" 7 5 0 3 (by decide),
   claimC6_amended.2.2 Nat [] "k" 7 5 0 6 (by decide)⟩

/-! ## Claim C7 -/

namespace OptimizedGoogleCalendar

lemma chunkGo_cons {β : Type} (m f : Nat) (q : List β) (hq : q ≠ []) :
    chunkGo m (f + 1) q = q.take m :: chunkGo m f (q.drop m) := by
  cases q with
  | nil => exact absurd rfl hq
  | cons a l => rfl

lemma chunkGo_flatten {β : Type} (m : Nat) (hm : 1 ≤ m) :
    ∀ (f : Nat) (q : List β), q.length ≤ f → (chunkGo m f q).flatten = q := by
  intro f
  induction f with
  | zero =>
    intro q hq
    have : q = [] := List.length_eq_zero.mp (Nat.le_zero.mp hq)
    subst this
    rfl
  | succ f ih =>
    intro q hq
    cases q with
    | nil => rfl
    | cons a l =>
      rw [chunkGo_cons m f _ (by simp), List.flatten_cons,
        ih ((a :: l).drop m) (by simp only [List.length_drop]; simp at hq ⊢; omega)]
      exact List.take_append_drop m (a :: l)

lemma chunkBatches_120 {β : Type} (q : List β) (h : q.length = 120) :
    chunkBatches 50 q = [q.take 50, (q.drop 50).take 50, (q.drop 50).drop 50] := by
  have h1 : q ≠ [] := by intro e; rw [e] at h; simp at h
  have l2 : (q.drop 50).length = 70 := by rw [List.length_drop, h]
  have l3 : ((q.drop 50).drop 50).length = 20 := by rw [List.length_drop, l2]
  have h2 : q.drop 50 ≠ [] := by intro e; rw [e] at l2; simp at l2
  have h3 : (q.drop 50).drop 50 ≠ [] := by intro e; rw [e] at l3; simp at l3
  have h4 : ((q.drop 50).drop 50).drop 50 = [] := by
    have : (((q.drop 50).drop 50).drop 50).length = 0 := by rw [List.length_drop, l3]
    exact List.length_eq_zero.mp this
  have h5 : ((q.drop 50).drop 50).take 50 = (q.drop 50).drop 50 :=
    List.take_of_length_le (by omega)
  unfold chunkBatches
  rw [h]
  rw [show (120 : Nat) = 119 + 1 from rfl, chunkGo_cons _ _ _ h1]
  rw [show (119 : Nat) = 118 + 1 from rfl, chunkGo_cons _ _ _ h2]
  rw [show (118 : Nat) = 117 + 1 from rfl, chunkGo_cons _ _ _ h3]
  rw [h4, h5]
  rfl

end OptimizedGoogleCalendar

open OptimizedGoogleCalendar in
/-- Claim C7, confirmed: enqueuing 120 operations with `MAX_BATCH_SIZE = 50`
produces exactly 3 flush cycles of 50, 50 and 20 operations, selected by
`splice` in enqueue (FIFO) order — the cycles are the successive segments of
the queue and concatenate back to it — and, through `Promise.allSettled`,
every operation settles with its own individual outcome, so one operation's
failure leaves every other operation's settlement untouched. -/
theorem claimC7_confirmed :
    ∀ (β ε ρ : Type) (q : List β) (exec : β → Except ε ρ),
      q.length = 120 →
      chunkBatches 50 q = [q.take 50, (q.drop 50).take 50, (q.drop 50).drop 50] ∧
      (chunkBatches 50 q).map List.length = [50, 50, 20] ∧
      (chunkBatches 50 q).flatten = q ∧
      (processAll 50 exec q).flatten = q.map (fun op => (op, exec op)) := by
  intro β ε ρ q exec h
  have hch := chunkBatches_120 q h
  have hfl : (chunkBatches 50 q).flatten = q :=
    chunkGo_flatten 50 (by omega) q.length q (le_refl _)
  refine ⟨hch, ?_, hfl, ?_⟩
  · rw [hch]
    simp [List.length_take, List.length_drop, h]
  · unfold processAll batchSettle
    rw [← List.map_flatten, hfl]

open OptimizedGoogleCalendar in
/-- Witness for `claimC7_confirmed`: 120 numbered operations where exactly
operation 7 fails — three cycles of 50, 50, 20 in enqueue order, and every
operation settles with its own outcome. -/
theorem claimC7_witness :
    chunkBatches 50 (List.range 120)
        = [(List.range 120).take 50, ((List.range 120).drop 50).take 50,
           ((List.range 120).drop 50).drop 50] ∧
    (chunkBatches 50 (List.range 120)).map List.length = [50, 50, 20] ∧
    (chunkBatches 50 (List.range 120)).flatten = List.range 120 ∧
    (processAll 50 (fun n => if n = 7 then Except.error 0 else Except.ok n)
        (List.range 120)).flatten
      = (List.range 120).map
          (fun op => (op, if op = 7 then Except.error 0 else Except.ok op)) :=
  claimC7_confirmed Nat Nat Nat (List.range 120)
    (fun n => if n = 7 then Except.error 0 else Except.ok n) (by simp)

/-! ## Claim C8 -/

open OptimizedGoogleCalendar in
/-- Claim C8, counterexample: the claim says 4xx errors other than 429 are
never retried. On the code, a 4xx error whose message contains the quota
marker — such as Google's 403 quota errors — is classified retryable and is
retried with full backoff (three delays for `maxRetries = 3`). -/
theorem claimC8_counterexample :
    OptimizedGoogleCalendar.isRetryableError
        (some ⟨.num 403, some "quota exceeded for rateLimitExceeded"⟩) = true ∧
    (OptimizedGoogleCalendar.withRetry
        (fun _ => (.error ⟨.num 403, some "quota exceeded for rateLimitExceeded"⟩ :
          Except ApiError Nat)) 3 1000).2
      = [1000, 2000, 4000] := by
  exact ⟨by decide, by decide⟩

open OptimizedGoogleCalendar in
/-- Claim C8, amended: `getEvent` resolves to null rather than throwing when
the underlying call fails with HTTP 404, and that 404 is never retried — the
inner catch converts it to a successful null before the retry classifier runs,
so exactly one attempt is made and no backoff delay occurs; 4xx errors other
than 429 whose message does not contain the quota marker are not retried and
propagate after the single failing attempt. -/
theorem claimC8_amended :
    (∀ (outcomes : Nat → Except ApiError Nat) (m b : Nat) (e : ApiError),
      outcomes 0 = .error e → e.code = JsCode.num 404 →
      OptimizedGoogleCalendar.getEvent outcomes m b = (.ok none, [])) ∧
    (∀ (e : ApiError) (n : Int) (m b : Nat),
      e.code = JsCode.num n → 400 ≤ n → n < 500 → n ≠ 429 →
      (∀ msg, e.message = some msg → strIncludes msg "quota" = false) →
      OptimizedGoogleCalendar.isRetryableError (some e) = false ∧
      OptimizedGoogleCalendar.withRetry (fun _ => (.error e : Except ApiError Nat)) m b
        = (.error e, [])) := by
  constructor
  · intro outcomes m b e h0 h404
    have hatt : getEventAttempt (outcomes 0) = (.ok none : Except ApiError (Option Nat)) := by
      rw [h0]
      show (if e.code = JsCode.num 404 then (.ok none : Except ApiError (Option Nat))
            else .error e) = .ok none
      rw [if_pos h404]
    unfold OptimizedGoogleCalendar.getEvent OptimizedGoogleCalendar.withRetry withRetryGo
    rw [hatt]
  · intro e n m b hcode h400 h500 h429 hq
    have hretry : OptimizedGoogleCalendar.isRetryableError (some e) = false := by
      simp only [OptimizedGoogleCalendar.isRetryableError]
      rw [if_neg (by rw [hcode]; intro h; cases h; omega)]
      rw [if_neg (by rw [hcode]; simp only [codeInRange, Bool.and_eq_true, decide_eq_true_eq]
                     omega)]
      rw [if_neg (by rw [hcode]; simp)]
      rw [if_neg ?_]
      cases hm : e.message with
      | none => exact (by simp)
      | some msg => simp [hq msg hm]
    refine ⟨hretry, ?_⟩
    unfold OptimizedGoogleCalendar.withRetry
    cases m with
    | zero => unfold withRetryGo; rfl
    | succ r =>
      unfold withRetryGo
      simp [hretry]

open OptimizedGoogleCalendar in
/-- Witness for `claimC8_amended`: a 404 on the first attempt makes `getEvent`
resolve null with no delays, and a plain 404 error is not retryable and not
retried by `withRetry`. -/
theorem claimC8_witness :
    OptimizedGoogleCalendar.getEvent
        (fun _ => (.error ⟨.num 404, none⟩ : Except ApiError Nat)) 3 1000 = (.ok none, []) ∧
    (OptimizedGoogleCalendar.isRetryableError (some (⟨.num 404, none⟩ : ApiError)) = false ∧
      OptimizedGoogleCalendar.withRetry
        (fun _ => (.error (⟨.num 404, none⟩ : ApiError) : Except ApiError Nat)) 3 1000
        = (.error ⟨.num 404, none⟩, [])) :=
  ⟨claimC8_amended.1 (fun _ => .error ⟨.num 404, none⟩) 3 1000 ⟨.num 404, none⟩ rfl rfl,
   claimC8_amended.2 ⟨.num 404, none⟩ 404 3 1000 rfl (by decide) (by decide) (by decide)
     (fun msg h => Option.noConfusion h)⟩

/-! ## Claim C4 -/

lemma codeInRange_iff (c : JsCode) (lo hi : Int) :
    codeInRange c lo hi = true ↔ ∃ n : Int, c = JsCode.num n ∧ lo ≤ n ∧ n < hi := by
  cases c <;> simp [codeInRange]

lemma exists_str_mem_pair (code : JsCode) (a b : String) :
    (∃ s, code = JsCode.str s ∧ s ∈ [a, b]) ↔
      (code = JsCode.str a ∨ code = JsCode.str b) := by
  constructor
  · rintro ⟨s, rfl, hs⟩
    rcases (by simpa using hs : s = a ∨ s = b) with h | h
    · exact Or.inl (by rw [h])
    · exact Or.inr (by rw [h])
  · rintro (h | h)
    · exact ⟨a, h, by simp⟩
    · exact ⟨b, h, by simp⟩

lemma exists_str_mem_triple (code : JsCode) (a b c : String) :
    (∃ s, code = JsCode.str s ∧ s ∈ [a, b, c]) ↔
      (code = JsCode.str a ∨ code = JsCode.str b ∨ code = JsCode.str c) := by
  constructor
  · rintro ⟨s, rfl, hs⟩
    rcases (by simpa using hs : s = a ∨ s = b ∨ s = c) with h | h | h
    · exact Or.inl (by rw [h])
    · exact Or.inr (Or.inl (by rw [h]))
    · exact Or.inr (Or.inr (by rw [h]))
  · rintro (h | h | h)
    · exact ⟨a, h, by simp⟩
    · exact ⟨b, h, by simp⟩
    · exact ⟨c, h, by simp⟩

lemma quota_branch_iff (msg : Option String) :
    (match msg with | some m => strIncludes m "quota" | none => false) = true ↔
      ∃ m, msg = some m ∧ strIncludes m "quota" = true := by
  cases msg <;> simp

lemma isRetryableOpt_iff (e : ApiError) :
    OptimizedGoogleCalendar.isRetryableError (some e) = true ↔
      (e.code = JsCode.num 429 ∨ codeInRange e.code 500 600 = true ∨
       e.code = JsCode.str "ECONNRESET" ∨ e.code = JsCode.str "ETIMEDOUT" ∨
       (∃ m, e.message = some m ∧ strIncludes m "quota" = true)) := by
  simp only [OptimizedGoogleCalendar.isRetryableError]
  split_ifs with h1 h2 h3 h4
  · simp [h1]
  · simp [h2]
  · rcases (by simpa using h3 : e.code = JsCode.str "ECONNRESET" ∨
        e.code = JsCode.str "ETIMEDOUT") with h | h <;> simp [h]
  · rw [quota_branch_iff] at h4
    simp [h4]
  · rw [quota_branch_iff] at h4
    constructor
    · intro h
      cases h
    · intro h
      rcases h with h | h | h | h | h
      · exact absurd h h1
      · exact absurd h h2
      · exact absurd (by simp [h]) h3
      · exact absurd (by simp [h]) h3
      · exact absurd h h4

lemma isRetryableGC_iff (e : ApiError) :
    GoogleCalendar.isRetryableError (some e) = true ↔
      (e.code = JsCode.num 429 ∨ codeInRange e.code 500 600 = true ∨
       e.code = JsCode.str "ECONNRESET" ∨ e.code = JsCode.str "ETIMEDOUT" ∨
       e.code = JsCode.str "ECONNREFUSED" ∨
       (∃ m, e.message = some m ∧ strIncludes m "quota" = true)) := by
  simp only [GoogleCalendar.isRetryableError]
  split_ifs with h1 h2 h3 h4
  · simp [h1]
  · simp [h2]
  · rcases (by simpa using h3 : (e.code = JsCode.str "ECONNRESET" ∨
        e.code = JsCode.str "ETIMEDOUT") ∨ e.code = JsCode.str "ECONNREFUSED") with (h | h) | h <;>
      simp [h]
  · rw [quota_branch_iff] at h4
    simp [h4]
  · rw [quota_branch_iff] at h4
    constructor
    · intro h
      cases h
    · intro h
      rcases h with h | h | h | h | h | h
      · exact absurd h h1
      · exact absurd h h2
      · exact absurd (by simp [h]) h3
      · exact absurd (by simp [h]) h3
      · exact absurd (by simp [h]) h3
      · exact absurd h h4

open OptimizedGoogleCalendar GoogleCalendar GoogleTasksClient in
/-- Claim C4, counterexample: the claim classifies an error as retryable only
if it is a 429, a [500,600) status, a connection-reset/timeout code, or a
quota-marked message. `google-calendar.ts` additionally treats
`ECONNREFUSED` — connection refused, which is neither a reset nor a
timeout — as retryable, so the claimed "only if" direction fails there. -/
theorem claimC4_counterexample :
    GoogleCalendar.isRetryableError (some ⟨.str "ECONNREFUSED", none⟩) = true ∧
    ¬ specRetryable ["ECONNRESET", "ETIMEDOUT"] (some ⟨.str "ECONNREFUSED", none⟩) := by
  constructor
  · decide
  · intro h
    rcases h with h | ⟨n, hn, _⟩ | ⟨s, hs, hmem⟩ | ⟨m, hm, _⟩
    · exact JsCode.noConfusion h
    · exact JsCode.noConfusion hn
    · cases hs
      simp at hmem
    · exact Option.noConfusion hm

open OptimizedGoogleCalendar GoogleCalendar GoogleTasksClient in
/-- Claim C4, amended: each retry classifier is an exact iff. For
`OptimizedGoogleCalendar.isRetryableError` the retryable set is exactly 429,
[500,600), the connection-reset/timeout codes ECONNRESET/ETIMEDOUT, and
quota-marked messages — exactly as the claim states. For
`google-calendar.ts`'s classifier the connection-code set additionally
contains ECONNREFUSED. The Tasks client's request loop retries only on
status 429 or [500,600). Every non-retryable error propagates to the caller
immediately after the failing attempt: no backoff delay, no retry consumed. -/
theorem claimC4_amended :
    (∀ e : Option ApiError,
      OptimizedGoogleCalendar.isRetryableError e = true ↔
        specRetryable ["ECONNRESET", "ETIMEDOUT"] e) ∧
    (∀ e : Option ApiError,
      GoogleCalendar.isRetryableError e = true ↔
        specRetryable ["ECONNRESET", "ETIMEDOUT", "ECONNREFUSED"] e) ∧
    (∀ c : JsCode,
      requestRetryCondition c = true ↔
        (c = JsCode.num 429 ∨ ∃ n : Int, c = JsCode.num n ∧ 500 ≤ n ∧ n < 600)) ∧
    (∀ (e : ApiError) (outcomes : Nat → Except ApiError Nat) (m b : Nat),
      OptimizedGoogleCalendar.isRetryableError (some e) = false →
      outcomes 0 = .error e →
      OptimizedGoogleCalendar.withRetry outcomes m b = (.error e, [])) := by
  refine ⟨?_, ?_, ?_, ?_⟩
  · intro e
    rcases e with _ | e
    · simp [OptimizedGoogleCalendar.isRetryableError, specRetryable]
    · rw [isRetryableOpt_iff]
      simp only [specRetryable]
      rw [codeInRange_iff, exists_str_mem_pair]
      simp only [or_assoc]
  · intro e
    rcases e with _ | e
    · simp [GoogleCalendar.isRetryableError, specRetryable]
    · rw [isRetryableGC_iff]
      simp only [specRetryable]
      rw [codeInRange_iff, exists_str_mem_triple]
      simp only [or_assoc]
  · intro c
    rw [requestRetryCondition, Bool.or_eq_true, codeInRange_iff]
    simp
  · intro e outcomes m b hretry h0
    unfold OptimizedGoogleCalendar.withRetry
    cases m with
    | zero => unfold withRetryGo; rw [h0]
    | succ r =>
      unfold withRetryGo
      rw [h0]
      simp [hretry]

open OptimizedGoogleCalendar GoogleCalendar GoogleTasksClient in
/-- Witness for `claimC4_amended`: a 404 is not retryable under any of the
three classifiers, `withRetry` surfaces it after a single attempt with no
backoff, and a 503 is retryable under all three. -/
theorem claimC4_witness :
    (OptimizedGoogleCalendar.isRetryableError (some ⟨.num 404, none⟩) = true ↔
      specRetryable ["ECONNRESET", "ETIMEDOUT"] (some ⟨.num 404, none⟩)) ∧
    (GoogleCalendar.isRetryableError (some ⟨.num 503, none⟩) = true ↔
      specRetryable ["ECONNRESET", "ETIMEDOUT", "ECONNREFUSED"] (some ⟨.num 503, none⟩)) ∧
    (requestRetryCondition (JsCode.num 404) = true ↔
      (JsCode.num 404 = JsCode.num 429 ∨
       ∃ n : Int, JsCode.num 404 = JsCode.num n ∧ 500 ≤ n ∧ n < 600)) ∧
    OptimizedGoogleCalendar.withRetry
        (fun _ => (.error ⟨.num 404, none⟩ : Except ApiError Nat)) 3 1000
      = (.error ⟨.num 404, none⟩, []) :=
  ⟨claimC4_amended.1 (some ⟨.num 404, none⟩),
   claimC4_amended.2.1 (some ⟨.num 503, none⟩),
   claimC4_amended.2.2.1 (JsCode.num 404),
   claimC4_amended.2.2.2 ⟨.num 404, none⟩ (fun _ => .error ⟨.num 404, none⟩) 3 1000
     (by decide) rfl⟩

/-! ## Claim C3 -/

namespace OptimizedGoogleCalendar

/-- Invariant tying the admissions history `A` to the rate-limiter state
between sequential `throttleRequest` calls: the history is time-ordered, the
`requestTimestamps` array is a suffix of it whose pruned-away entries left
the trailing window before the last admission, every admission happened by
`lastRequestTime`, every 1-second window of the history holds at most `limit`
admissions, and the array never exceeds `limit` entries. -/
structure RLInv (limit : Nat) (A : List Nat) (s : RLState) : Prop where
  sorted : List.Sorted (· ≤ ·) A
  decomp : ∃ front, A = front ++ s.requestTimestamps ∧
    ∀ a ∈ front, a + 1000 ≤ s.lastRequestTime
  bound : ∀ a ∈ A, a ≤ s.lastRequestTime
  win : ∀ t, windowCount A t ≤ limit
  size : s.requestTimestamps.length ≤ limit

lemma sorted_filter_suffix (now : Nat) :
    ∀ l : List Nat, List.Sorted (· ≤ ·) l →
      ∃ dropped, l = dropped ++ l.filter (fun a => decide (now - a < 1000)) ∧
        ∀ a ∈ dropped, ¬(now - a < 1000) := by
  intro l
  induction l with
  | nil => exact fun _ => ⟨[], rfl, by simp⟩
  | cons h tl ih =>
    intro hs
    by_cases hp : now - h < 1000
    · have hall : ∀ a ∈ h :: tl, (fun a => decide (now - a < 1000)) a = true := by
        intro a ha
        simp only [decide_eq_true_eq]
        rcases List.mem_cons.mp ha with rfl | ha
        · exact hp
        · have hha := (List.sorted_cons.mp hs).1 a ha
          omega
      exact ⟨[], by rw [List.filter_eq_self.mpr hall, List.nil_append], by simp⟩
    · obtain ⟨d, hd, hdp⟩ := ih (List.sorted_cons.mp hs).2
      refine ⟨h :: d, ?_, ?_⟩
      · rw [List.filter_cons, if_neg (by simpa using hp), List.cons_append, ← hd]
      · intro a ha
        rcases List.mem_cons.mp ha with rfl | ha
        · exact hp
        · exact hdp a ha

lemma length_filter_imp {l : List Nat} {q r : Nat → Bool}
    (h : ∀ x ∈ l, q x = true → r x = true) :
    (l.filter q).length ≤ (l.filter r).length := by
  induction l with
  | nil => simp
  | cons a tl ih =>
    have ih' := ih (fun x hx => h x (List.mem_cons_of_mem a hx))
    rw [List.filter_cons, List.filter_cons]
    by_cases hq : q a = true
    · rw [if_pos hq, if_pos (h a (by simp) hq)]
      simpa using ih'
    · rw [if_neg hq]
      split
      · exact le_trans ih' (by simp)
      · exact ih'

lemma windowCount_append (A B : List Nat) (t : Nat) :
    windowCount (A ++ B) t = windowCount A t + windowCount B t := by
  unfold windowCount
  rw [List.filter_append, List.length_append]

lemma windowCount_single (p t : Nat) :
    windowCount [p] t = if t ≤ p ∧ p < t + 1000 then 1 else 0 := by
  unfold windowCount
  by_cases h1 : t ≤ p <;> by_cases h2 : p < t + 1000 <;>
    simp [List.filter_cons, h1, h2]

lemma throttleOnce_succ_ge (limit minI fuel : Nat) (s : RLState) (now : Nat)
    (ts : List Nat) (hts : ts = s.requestTimestamps.filter (fun a => decide (now - a < 1000)))
    (h : limit ≤ ts.length) :
    throttleOnce limit minI (fuel + 1) s now
      = throttleOnce limit minI fuel ⟨ts, s.lastRequestTime⟩
          (now + (1000 - (now - ts.headD 0) + 10)) := by
  subst hts
  simp only [throttleOnce]
  rw [if_pos h]

lemma throttleOnce_succ_lt (limit minI fuel : Nat) (s : RLState) (now : Nat)
    (ts : List Nat) (hts : ts = s.requestTimestamps.filter (fun a => decide (now - a < 1000)))
    (h : ¬ limit ≤ ts.length) :
    throttleOnce limit minI (fuel + 1) s now
      = (⟨ts ++ [if now - s.lastRequestTime < minI
                  then now + (minI - (now - s.lastRequestTime)) else now],
          if now - s.lastRequestTime < minI
            then now + (minI - (now - s.lastRequestTime)) else now⟩,
         if now - s.lastRequestTime < minI
           then now + (minI - (now - s.lastRequestTime)) else now) := by
  subst hts
  simp only [throttleOnce]
  rw [if_neg h]

lemma admit_core (limit minI : Nat) (A : List Nat) (s : RLState) (now : Nat)
    (hsorted : List.Sorted (· ≤ ·) A)
    (hfront : ∃ front, A = front ++ s.requestTimestamps ∧ ∀ a ∈ front, a + 1000 ≤ now)
    (hbound : ∀ a ∈ A, a ≤ s.lastRequestTime)
    (hlrt : s.lastRequestTime ≤ now)
    (hwin : ∀ t, windowCount A t ≤ limit)
    (hlen : (s.requestTimestamps.filter (fun a => decide (now - a < 1000))).length < limit) :
    RLInv limit
      (A ++ [if now - s.lastRequestTime < minI
              then now + (minI - (now - s.lastRequestTime)) else now])
      ⟨s.requestTimestamps.filter (fun a => decide (now - a < 1000))
         ++ [if now - s.lastRequestTime < minI
              then now + (minI - (now - s.lastRequestTime)) else now],
       if now - s.lastRequestTime < minI
         then now + (minI - (now - s.lastRequestTime)) else now⟩ := by
  obtain ⟨front, hA, hfb⟩ := hfront
  set ts := s.requestTimestamps.filter (fun a => decide (now - a < 1000)) with hts
  set p := (if now - s.lastRequestTime < minI
            then now + (minI - (now - s.lastRequestTime)) else now) with hpdef
  have hnp : now ≤ p := by rw [hpdef]; split <;> omega
  have hRsorted : List.Sorted (· ≤ ·) s.requestTimestamps := by
    rw [hA] at hsorted
    exact (List.pairwise_append.mp hsorted).2.1
  have hRsubA : ∀ a ∈ s.requestTimestamps, a ∈ A := by
    intro a ha
    rw [hA]
    exact List.mem_append_right _ ha
  obtain ⟨dropped, hRd, hdp⟩ := sorted_filter_suffix now s.requestTimestamps hRsorted
  have hdropA : ∀ a ∈ dropped, a ∈ A := by
    intro a ha
    exact hRsubA a (by rw [hRd]; exact List.mem_append_left _ ha)
  refine ⟨?_, ?_, ?_, ?_, ?_⟩
  · refine List.pairwise_append.mpr ⟨hsorted, List.pairwise_singleton _ _, ?_⟩
    intro a ha b hb
    rcases List.mem_singleton.mp hb with rfl
    exact le_trans (hbound a ha) (le_trans hlrt hnp)
  · refine ⟨front ++ dropped, ?_, ?_⟩
    · rw [hA, hRd, ← hts]
      simp [List.append_assoc]
    · intro a ha
      dsimp only
      rcases List.mem_append.mp ha with ha | ha
      · exact le_trans (hfb a ha) hnp
      · have h1 := hdp a ha
        have h2 := hbound a (hdropA a ha)
        omega
  · intro a ha
    rcases List.mem_append.mp ha with ha | ha
    · exact le_trans (hbound a ha) (le_trans hlrt hnp)
    · rcases List.mem_singleton.mp ha with rfl
      exact le_refl _
  · intro t
    rw [windowCount_append, windowCount_single]
    by_cases hin : t ≤ p ∧ p < t + 1000
    · rw [if_pos hin]
      have hF : windowCount front t = 0 := by
        unfold windowCount
        rw [List.length_eq_zero]
        rw [List.filter_eq_nil_iff]
        intro a ha
        simp only [Bool.and_eq_true, decide_eq_true_eq, not_and]
        intro h1 h2
        have h3 := hfb a ha
        omega
      have hRw : windowCount s.requestTimestamps t ≤ ts.length := by
        unfold windowCount
        rw [hts]
        apply length_filter_imp
        intro x _ hx
        simp only [Bool.and_eq_true, decide_eq_true_eq] at hx
        simp only [decide_eq_true_eq]
        omega
      have hAw : windowCount A t ≤ ts.length := by
        rw [hA, windowCount_append, hF]
        simpa using hRw
      omega
    · rw [if_neg hin]
      have := hwin t
      omega
  · rw [List.length_append]
    simp only [List.length_cons, List.length_nil]
    omega

lemma throttleOnce_inv (limit minI : Nat) (hl : 1 ≤ limit) (A : List Nat) (s : RLState)
    (now : Nat) (hinv : RLInv limit A s) (hlrt : s.lastRequestTime ≤ now) :
    RLInv limit (A ++ [(throttleOnce limit minI 2 s now).2])
      (throttleOnce limit minI 2 s now).1 := by
  have hfrontNow : ∃ front, A = front ++ s.requestTimestamps ∧
      ∀ a ∈ front, a + 1000 ≤ now := by
    obtain ⟨f, h1, h2⟩ := hinv.decomp
    exact ⟨f, h1, fun a ha => le_trans (h2 a ha) hlrt⟩
  set ts := s.requestTimestamps.filter (fun a => decide (now - a < 1000)) with hts
  by_cases hcase : limit ≤ ts.length
  · -- window-full branch: wait until the oldest admission leaves the window,
    -- then re-run the body once; the re-run always admits.
    have htsne : ts ≠ [] := by
      intro e
      rw [e] at hcase
      simp at hcase
      omega
    obtain ⟨o, rest, hcons⟩ := List.exists_cons_of_ne_nil htsne
    have hoD : ts.headD 0 = o := by rw [hcons]; rfl
    have homem : o ∈ ts := by rw [hcons]; simp
    have hopred : now - o < 1000 := by
      have := List.of_mem_filter (p := fun a => decide (now - a < 1000)) (by rw [← hts]; exact homem)
      simpa using this
    have hoA : o ∈ A := by
      obtain ⟨f, hA, _⟩ := hinv.decomp
      rw [hA]
      exact List.mem_append_right _ (List.mem_of_mem_filter (by rw [← hts]; exact homem))
    have holrt : o ≤ s.lastRequestTime := hinv.bound o hoA
    have honow : o ≤ now := le_trans holrt hlrt
    rw [throttleOnce_succ_ge limit minI 1 s now ts hts hcase, hoD]
    set now2 := now + (1000 - (now - o) + 10) with hnow2
    have hnow2o : now2 = o + 1010 := by omega
    have hnow2ge : now ≤ now2 := by omega
    set ts2 := ts.filter (fun a => decide (now2 - a < 1000)) with hts2
    have hts2r : ts2 = rest.filter (fun a => decide (now2 - a < 1000)) := by
      rw [hts2, hcons, List.filter_cons, if_neg (by simp only [decide_eq_true_eq]; omega)]
    have htslen : ts.length ≤ limit :=
      le_trans (by rw [hts]; exact List.length_filter_le _ _) hinv.size
    have hlen2 : ts2.length < limit := by
      have h1 : ts2.length ≤ rest.length := by
        rw [hts2r]
        exact List.length_filter_le _ _
      have h2 : ts.length = rest.length + 1 := by rw [hcons]; rfl
      omega
    have hmid : (⟨ts, s.lastRequestTime⟩ : RLState).requestTimestamps.filter
        (fun a => decide (now2 - a < 1000)) = ts2 := by
      rw [hts2]
    rw [throttleOnce_succ_lt limit minI 0 ⟨ts, s.lastRequestTime⟩ now2 ts2 hmid.symm
      (by omega)]
    have hRsorted : List.Sorted (· ≤ ·) s.requestTimestamps := by
      obtain ⟨f, hA, _⟩ := hinv.decomp
      have := hinv.sorted
      rw [hA] at this
      exact (List.pairwise_append.mp this).2.1
    obtain ⟨dropped, hRd, hdp⟩ := sorted_filter_suffix now s.requestTimestamps hRsorted
    have happly := admit_core limit minI A ⟨ts, s.lastRequestTime⟩ now2
      hinv.sorted
      (by
        obtain ⟨f, hA, hfb⟩ := hfrontNow
        refine ⟨f ++ dropped, ?_, ?_⟩
        · rw [hA, hRd, ← hts]
          simp [List.append_assoc]
        · intro a ha
          rcases List.mem_append.mp ha with ha | ha
          · exact le_trans (hfb a ha) hnow2ge
          · have h1 := hdp a ha
            have h2 : a ∈ A := by
              rw [hA, hRd]
              exact List.mem_append_right _ (List.mem_append_left _ ha)
            have h3 := hinv.bound a h2
            omega)
      (fun a ha => hinv.bound a ha)
      (le_trans hlrt hnow2ge)
      hinv.win
      (by rw [hmid]; exact hlen2)
    exact happly
  · rw [throttleOnce_succ_lt limit minI 1 s now ts hts hcase]
    exact admit_core limit minI A s now hinv.sorted hfrontNow hinv.bound hlrt hinv.win
      (by rw [← hts]; omega)

lemma seqThrottle_inv (limit minI : Nat) (hl : 1 ≤ limit) :
    ∀ (times : List Nat) (A : List Nat) (s : RLState), RLInv limit A s →
      ∀ t, windowCount (A ++ seqThrottle limit minI s times) t ≤ limit := by
  intro times
  induction times with
  | nil =>
    intro A s hinv t
    simp only [seqThrottle, List.append_nil]
    exact hinv.win t
  | cons u rest ih =>
    intro A s hinv t
    have hlrt : s.lastRequestTime ≤ max u s.lastRequestTime := le_max_right _ _
    have hcall := throttleOnce_inv limit minI hl A s (max u s.lastRequestTime) hinv hlrt
    rw [seqThrottle]
    rw [List.append_cons]
    exact ih _ _ hcall t

end OptimizedGoogleCalendar

open OptimizedGoogleCalendar in
/-- Claim C3, counterexample: six concurrent `throttleRequest` calls (3 ×
`ratePerSecond` for `ratePerSecond = 2`, minimum interval 500 ms) entered in
one tick at t = 2000 on a fresh service. The first is admitted at t = 2000;
the other five all pass the window check on the same snapshot, wait the same
minimum-interval delay, and — since the code pushes after that delay without
re-checking either condition — are all admitted at t = 2500. All six calls
settle, and the rolling window starting at t = 1501 contains 6 > 2
admissions, violating the claimed bound. -/
theorem claimC3_counterexample :
    (simulate 2 500 20 sixCallBurst).admissions = [2000, 2500, 2500, 2500, 2500, 2500] ∧
    windowCount (simulate 2 500 20 sixCallBurst).admissions 1501 = 6 ∧
    pickNext (simulate 2 500 20 sixCallBurst).tasks = none := by
  exact ⟨by decide, by decide, by decide⟩

open OptimizedGoogleCalendar in
/-- Claim C3, amended: under sequential (non-overlapping) calls — each
`throttleRequest` entered only after the previous one completed — the rate
limiter never admits more than `ratePerSecond` requests within any rolling
1-second window: for every sequence of call instants the number of admission
instants in any window [t, t + 1000) is at most `ratePerSecond`. Under
concurrent overlapping calls the bound can be violated, because the
minimum-interval branch pushes its admission after its delay without
re-checking the window (see the counterexample). -/
theorem claimC3_amended :
    ∀ (limit minI : Nat) (times : List Nat), 1 ≤ limit →
      ∀ t : Nat, windowCount (seqThrottle limit minI ⟨[], 0⟩ times) t ≤ limit := by
  intro limit minI times hl t
  have h0 : RLInv limit [] ⟨[], 0⟩ :=
    ⟨List.sorted_nil, ⟨[], rfl, by simp⟩, by simp, fun u => by simp [windowCount], by simp⟩
  simpa using seqThrottle_inv limit minI hl times [] ⟨[], 0⟩ h0 t

open OptimizedGoogleCalendar in
/-- Witness for `claimC3_amended`: four sequential calls at requested instant
2000 with `ratePerSecond = 2` admit at 2000, 2500, 3010, 3510 — every window
of one second holds at most two admissions. -/
theorem claimC3_witness :
    windowCount (seqThrottle 2 500 ⟨[], 0⟩ [2000, 2000, 2000, 2000]) 1501 ≤ 2 :=
  claimC3_amended 2 500 [2000, 2000, 2000, 2000] (by decide) 1501

end MiaClient
